import Mathlib

/-!
Verification of the sanding-demo pipeline (`src/sanding_demo1/src/demo2.cpp`)
against its natural-language specification.

The geometric and problem-building code manipulates IEEE doubles; the
embedding models doubles as real numbers, so every arithmetic identity below
is exact.  Fixed-size Eigen vectors become a `V3` record, `Eigen::Isometry3d`
becomes a record of the three rotation columns plus the translation, and the
trajopt problem-construction structures become plain Lean records and an
inductive of cost-term variants.
-/

noncomputable section

namespace Demo2

/-- A 3-vector of reals, modelling `Eigen::Vector3d`. -/
structure V3 where
  x : ℝ
  y : ℝ
  z : ℝ

/-- Componentwise addition of 3-vectors. -/
def vadd (a b : V3) : V3 := ⟨a.x + b.x, a.y + b.y, a.z + b.z⟩

/-- Componentwise subtraction of 3-vectors. -/
def vsub (a b : V3) : V3 := ⟨a.x - b.x, a.y - b.y, a.z - b.z⟩

/-- Componentwise negation, modelling Eigen's unary minus. -/
def vneg (a : V3) : V3 := ⟨-a.x, -a.y, -a.z⟩

/-- Scalar multiple of a 3-vector. -/
def vsmul (c : ℝ) (a : V3) : V3 := ⟨c * a.x, c * a.y, c * a.z⟩

/-- Euclidean dot product, modelling `Eigen::Vector3d::dot`. -/
def dot (a b : V3) : ℝ := a.x * b.x + a.y * b.y + a.z * b.z

/-- Cross product, modelling `Eigen::Vector3d::cross`. -/
def cross (a b : V3) : V3 :=
  ⟨a.y * b.z - a.z * b.y, a.z * b.x - a.x * b.z, a.x * b.y - a.y * b.x⟩

/-- Euclidean norm, modelling `Eigen::Vector3d::norm`. -/
def vnorm (a : V3) : ℝ := Real.sqrt (dot a a)

/-- Normalization `v / v.norm()`, modelling `Eigen::Vector3d::normalized`. -/
def normalized (a : V3) : V3 := vsmul (vnorm a)⁻¹ a

/-- A rigid transform, modelling `Eigen::Isometry3d`: the three columns of the
rotation block of `pose.matrix()` plus the translation column. -/
structure Iso where
  colX : V3
  colY : V3
  colZ : V3
  trans : V3

/-- Application of the rotation block to a vector (matrix·vector with the
columns `colX`, `colY`, `colZ`). -/
def apRot (m : Iso) (v : V3) : V3 :=
  vadd (vadd (vsmul v.x m.colX) (vsmul v.y m.colY)) (vsmul v.z m.colZ)

/-- Composition `m * Eigen::Translation3d(v)`: the rotation is unchanged and
the translation becomes `m.trans + R·v`. -/
def translate (m : Iso) (v : V3) : Iso :=
  { m with trans := vadd m.trans (apRot m v) }

/-- The identity isometry, `Eigen::Isometry3d::Identity()`. -/
def isoId : Iso := ⟨⟨1, 0, 0⟩, ⟨0, 1, 0⟩, ⟨0, 0, 1⟩, ⟨0, 0, 0⟩⟩

/-! ### makePath (demo2.cpp lines 106-148)

The C++ loop nest is

```
origin = Identity, origin.translation() = (1, 0, 0.5);
for (i = 0; i < n_slices; ++i) {
  z = i * slice_height;
  slice_center = origin * Translation3d(0, 0, z);
  for (double r = 0.0; r <= 2*M_PI; r += M_PI/12.0) {
    offset = (radius*cos r, radius*sin r, 0);
    pose = slice_center * Translation3d(offset);
    z_axis = -(pose.translation() - slice_center.translation()).normalized();
    y_axis = (-sin r, cos r, 0).normalized();
    x_axis = y_axis.cross(z_axis).normalized();
    pose columns := x_axis, y_axis, z_axis;  v.push_back(pose);
  }
}
```

The inner loop is a `double` accumulator `r = 0, Δ, 2Δ, …` run while
`r ≤ 2π` with `Δ = π/12`; over the reals the iteration count is the number
of `k : ℕ` with `k·Δ ≤ 2π`, which is 25 (the bound `24·(π/12) = 2π` is hit
exactly, so the `r = 2π` sample IS executed; the compiled IEEE-double loop
takes the same 25 iterations).  The embedding keeps the iteration count as
an explicit parameter `nSamples`, and `loopCount` below characterizes the
count that the source's loop condition produces. -/

/-- The iteration count of the C loop `for (r = 0; r <= bound; r += step)`
in exact arithmetic: `n` is the count iff the loop body runs exactly for the
angles `k·step`, `k < n`. -/
def loopCount (step bound : ℝ) (n : ℕ) : Prop :=
  ∀ k : ℕ, k < n ↔ (k : ℝ) * step ≤ bound

/-- The waypoint pose of slice `i`, angular sample `k` (angle `k·angStep`),
exactly as the inner loop body of `makePath` builds it. -/
def waypointP (radius sliceHeight angStep : ℝ) (org : Iso) (i k : ℕ) : Iso :=
  let z : ℝ := (i : ℝ) * sliceHeight
  let slice_center := translate org ⟨0, 0, z⟩
  let r : ℝ := (k : ℝ) * angStep
  let offset : V3 := ⟨radius * Real.cos r, radius * Real.sin r, 0⟩
  let pose := translate slice_center offset
  let z_axis := vneg (normalized (vsub pose.trans slice_center.trans))
  let y_axis := normalized ⟨-Real.sin r, Real.cos r, 0⟩
  let x_axis := normalized (cross y_axis z_axis)
  ⟨x_axis, y_axis, z_axis, pose.trans⟩

/-- The toolpath loop nest, parametrized over the geometric inputs; slice
index outer, angular sample inner, `nSamples` angular samples per slice. -/
def makePathP (radius sliceHeight : ℝ) (nSlices : ℕ) (angStep : ℝ)
    (nSamples : ℕ) (org : Iso) : List Iso :=
  (List.range nSlices).flatMap fun i =>
    (List.range nSamples).map fun k => waypointP radius sliceHeight angStep org i k

/-- The constant `CYL_RADIUS` (demo2.cpp line 16). -/
def CYL_RADIUS : ℝ := 0.2

/-- The constant `n_slices` (line 114). -/
def n_slices : ℕ := 5

/-- The constant `slice_height` (line 115). -/
def slice_height : ℝ := 0.1

/-- The number of iterations the inner angular loop actually performs:
`k·(π/12) ≤ 2π` holds exactly for `k = 0, …, 24`, hence 25 samples per
revolution (see `samplesPerRev_loopCount`). -/
def samplesPerRev : ℕ := 25

/-- The origin frame of the path: identity rotation, translation (1, 0, 0.5)
(lines 109-110). -/
def origin : Iso := { isoId with trans := ⟨1, 0, 0.5⟩ }

/-- The toolpath `makePath` returns (lines 106-148), with the source's fixed
constants. -/
def makePath : List Iso :=
  makePathP CYL_RADIUS slice_height n_slices (Real.pi / 12) samplesPerRev origin

/-- The slice center of slice `i` (line 119). -/
def sliceCenter (i : ℕ) : Iso :=
  translate origin ⟨0, 0, (i : ℝ) * slice_height⟩

/-- The waypoint of slice `i`, angular sample `k`, at the source's constants. -/
def waypoint (i k : ℕ) : Iso :=
  waypointP CYL_RADIUS slice_height (Real.pi / 12) origin i k

/-- The source's loop condition `r <= 2*M_PI` with step `M_PI/12` runs for
exactly `samplesPerRev = 25` iterations: `k·(π/12) ≤ 2π ↔ k ≤ 24`. -/
theorem samplesPerRev_loopCount :
    loopCount (Real.pi / 12) (2 * Real.pi) samplesPerRev := by
  intro k
  have hpi : (0 : ℝ) < Real.pi / 12 := by positivity
  have h24 : (2 : ℝ) * Real.pi = (24 : ℝ) * (Real.pi / 12) := by ring
  rw [h24, mul_le_mul_right hpi]
  constructor
  · intro hk
    exact_mod_cast Nat.lt_succ_iff.mp hk
  · intro hk
    have : k ≤ 24 := by exact_mod_cast hk
    simpa [samplesPerRev, Nat.lt_succ_iff] using this

/-! ### Evaluation of the generated frames -/

/-- The origin's rotation block is the identity, so it maps every vector to
itself. -/
lemma apRot_origin (v : V3) : apRot origin v = v := by
  cases v with
  | mk x y z => simp [apRot, origin, isoId, vadd, vsmul]

/-- Translating does not change the rotation block, so `apRot` factors
through it. -/
lemma apRot_translate (m : Iso) (u v : V3) :
    apRot (translate m u) v = apRot m v := rfl

/-- The translation reached by a composed translation, relative to the
start, is the rotated offset. -/
lemma vsub_translate_trans (m : Iso) (v : V3) :
    vsub (translate m v).trans m.trans = apRot m v := by
  rcases hx : apRot m v with ⟨p, q, r⟩
  simp only [translate, hx, vsub, vadd, V3.mk.injEq]
  refine ⟨by ring, by ring, by ring⟩

/-- The translation reached by a composed translation. -/
lemma translate_trans (m : Iso) (v : V3) :
    (translate m v).trans = vadd m.trans (apRot m v) := rfl

/-- Norm of a point on a circle of radius `R`. -/
lemma vnorm_circle (R θ : ℝ) (h0 : 0 ≤ R) :
    vnorm ⟨R * Real.cos θ, R * Real.sin θ, 0⟩ = R := by
  have h : dot ⟨R * Real.cos θ, R * Real.sin θ, 0⟩
      ⟨R * Real.cos θ, R * Real.sin θ, 0⟩ = R ^ 2 := by
    simp only [dot]
    nlinarith [Real.sin_sq_add_cos_sq θ]
  rw [vnorm, h, Real.sqrt_sq h0]

/-- Normalizing a point on a circle of positive radius divides out the
radius. -/
lemma normalized_circle (R θ : ℝ) (h0 : 0 ≤ R) (hne : R ≠ 0) :
    normalized ⟨R * Real.cos θ, R * Real.sin θ, 0⟩ = ⟨Real.cos θ, Real.sin θ, 0⟩ := by
  rw [normalized, vnorm_circle R θ h0]
  simp only [vsmul, V3.mk.injEq]
  refine ⟨?_, ?_, by ring⟩ <;> field_simp

/-- The tangential direction is already a unit vector, so normalizing it is
the identity. -/
lemma normalized_tangent (θ : ℝ) :
    normalized ⟨-Real.sin θ, Real.cos θ, 0⟩ = ⟨-Real.sin θ, Real.cos θ, 0⟩ := by
  have h : dot ⟨-Real.sin θ, Real.cos θ, 0⟩ ⟨-Real.sin θ, Real.cos θ, 0⟩ = 1 := by
    simp only [dot]
    nlinarith [Real.sin_sq_add_cos_sq θ]
  rw [normalized, vnorm, h, Real.sqrt_one]
  simp [vsmul]

/-- Cross product of the tangential and inward directions: the cylinder-axis
direction `(0, 0, 1)`, for every angle. -/
lemma cross_tangent_inward (θ : ℝ) :
    cross ⟨-Real.sin θ, Real.cos θ, 0⟩ ⟨-Real.cos θ, -Real.sin θ, 0⟩ = ⟨0, 0, 1⟩ := by
  simp only [cross, V3.mk.injEq]
  refine ⟨by ring, by ring, ?_⟩
  nlinarith [Real.sin_sq_add_cos_sq θ]

/-- Normalizing the unit vector `(0, 0, 1)` is the identity. -/
lemma normalized_unitZ : normalized ⟨0, 0, 1⟩ = ⟨0, 0, 1⟩ := by
  have h : dot ⟨(0 : ℝ), 0, 1⟩ ⟨0, 0, 1⟩ = 1 := by simp [dot]
  rw [normalized, vnorm, h, Real.sqrt_one]
  simp [vsmul]

/-- Closed form of the slice center: identity rotation, translation
`(1, 0, 0.5 + i·slice_height)`. -/
lemma sliceCenter_eval (i : ℕ) :
    sliceCenter i = { origin with trans := ⟨1, 0, 0.5 + (i : ℝ) * slice_height⟩ } := by
  simp only [sliceCenter, translate, apRot_origin]
  simp only [origin, isoId, vadd, Iso.mk.injEq, V3.mk.injEq]
  norm_num

/-- Closed form of the waypoint of slice `i`, sample `k`: writing
`θ = k·(π/12)`, the columns are `x = (0,0,1)`, `y = (−sin θ, cos θ, 0)`,
`z = (−cos θ, −sin θ, 0)` and the position is the slice center plus
`(radius·cos θ, radius·sin θ, 0)`. -/
lemma waypoint_eval (i k : ℕ) :
    waypoint i k =
      ⟨⟨0, 0, 1⟩,
       ⟨-Real.sin ((k : ℝ) * (Real.pi / 12)), Real.cos ((k : ℝ) * (Real.pi / 12)), 0⟩,
       ⟨-Real.cos ((k : ℝ) * (Real.pi / 12)), -Real.sin ((k : ℝ) * (Real.pi / 12)), 0⟩,
       ⟨1 + CYL_RADIUS * Real.cos ((k : ℝ) * (Real.pi / 12)),
        CYL_RADIUS * Real.sin ((k : ℝ) * (Real.pi / 12)),
        0.5 + (i : ℝ) * slice_height⟩⟩ := by
  have h0 : (0 : ℝ) ≤ CYL_RADIUS := by norm_num [CYL_RADIUS]
  have hne : CYL_RADIUS ≠ 0 := by norm_num [CYL_RADIUS]
  simp only [waypoint, waypointP]
  rw [vsub_translate_trans, apRot_translate, apRot_origin,
    normalized_circle _ _ h0 hne]
  have hz : vneg ⟨Real.cos ((k : ℝ) * (Real.pi / 12)),
      Real.sin ((k : ℝ) * (Real.pi / 12)), 0⟩ =
      ⟨-Real.cos ((k : ℝ) * (Real.pi / 12)),
       -Real.sin ((k : ℝ) * (Real.pi / 12)), 0⟩ := by
    simp [vneg]
  rw [hz, normalized_tangent, cross_tangent_inward, normalized_unitZ]
  simp only [translate_trans, apRot_translate, apRot_origin]
  simp only [origin, isoId, vadd, Iso.mk.injEq, V3.mk.injEq]
  norm_num

/-- Norms of the three constructed axis directions. -/
lemma vnorm_tangent (θ : ℝ) : vnorm ⟨-Real.sin θ, Real.cos θ, 0⟩ = 1 := by
  have h : dot ⟨-Real.sin θ, Real.cos θ, 0⟩ ⟨-Real.sin θ, Real.cos θ, 0⟩ = 1 := by
    simp only [dot]
    nlinarith [Real.sin_sq_add_cos_sq θ]
  rw [vnorm, h, Real.sqrt_one]

/-- The inward direction is a unit vector. -/
lemma vnorm_inward (θ : ℝ) : vnorm ⟨-Real.cos θ, -Real.sin θ, 0⟩ = 1 := by
  have h : dot ⟨-Real.cos θ, -Real.sin θ, 0⟩ ⟨-Real.cos θ, -Real.sin θ, 0⟩ = 1 := by
    simp only [dot]
    nlinarith [Real.sin_sq_add_cos_sq θ]
  rw [vnorm, h, Real.sqrt_one]

/-- The cylinder-axis direction is a unit vector. -/
lemma vnorm_unitZ : vnorm ⟨(0 : ℝ), 0, 1⟩ = 1 := by
  have h : dot ⟨(0 : ℝ), 0, 1⟩ ⟨0, 0, 1⟩ = 1 := by simp [dot]
  rw [vnorm, h, Real.sqrt_one]

/-- Every (slice, sample) pair in range contributes its waypoint to
`makePath`. -/
lemma waypoint_mem_makePath (i k : ℕ) (hi : i < n_slices) (hk : k < samplesPerRev) :
    waypoint i k ∈ makePath := by
  simp only [makePath, makePathP, List.mem_flatMap, List.mem_map, List.mem_range]
  exact ⟨i, hi, k, hk, rfl⟩

/-- Conversely, every element of `makePath` is the waypoint of a (slice,
sample) pair in range. -/
lemma of_mem_makePath {p : Iso} (hp : p ∈ makePath) :
    ∃ i < n_slices, ∃ k < samplesPerRev, p = waypoint i k := by
  simp only [makePath, makePathP, List.mem_flatMap, List.mem_map, List.mem_range] at hp
  obtain ⟨i, hi, k, hk, h⟩ := hp
  exact ⟨i, hi, k, hk, h.symm⟩

/-- The generated toolpath has `n_slices · samplesPerRev = 125` entries. -/
lemma makePath_length : makePath.length = 125 := by
  simp [makePath, makePathP, List.length_flatMap, Function.comp, List.range_succ,
    n_slices, samplesPerRev]

/-- C1: the spec requires a fixed integer sample count per revolution with
no duplicate of the 0/2π sample and a toolpath of 5 × 24 = 120 waypoints;
the source's loop `for (r = 0; r <= 2*M_PI; r += M_PI/12)` instead reaches
the bound exactly at the 25th sample `r = 24·(π/12) = 2π`, so the path has
5 × 25 = 125 waypoints (not 120) and the last sample of each revolution
duplicates the position of the 0-angle sample. -/
theorem makePath_inclusive_bound_gives_125 :
    makePath.length = 125 ∧ makePath.length ≠ 5 * 24 ∧
    (24 : ℝ) * (Real.pi / 12) = 2 * Real.pi ∧
    (waypoint 0 24).trans = (waypoint 0 0).trans := by
  have h24 : ((24 : ℕ) : ℝ) * (Real.pi / 12) = 2 * Real.pi := by push_cast; ring
  refine ⟨makePath_length, by rw [makePath_length]; norm_num, by ring, ?_⟩
  rw [waypoint_eval, waypoint_eval]
  simp only [h24, Nat.cast_zero, zero_mul, Real.cos_two_pi, Real.sin_two_pi,
    Real.cos_zero, Real.sin_zero]

/-- C4: every frame generated by `makePath` has pairwise orthogonal axes
(each pairwise dot product within 1e-9 of 0) and unit-length axes (each
norm within 1e-9 of 1); in the real-number model the dot products are
exactly 0 and the norms exactly 1. -/
theorem makePath_frames_orthonormal (p : Iso) (hp : p ∈ makePath) :
    |dot p.colX p.colY| ≤ 1e-9 ∧ |dot p.colY p.colZ| ≤ 1e-9 ∧
    |dot p.colX p.colZ| ≤ 1e-9 ∧ |vnorm p.colX - 1| ≤ 1e-9 ∧
    |vnorm p.colY - 1| ≤ 1e-9 ∧ |vnorm p.colZ - 1| ≤ 1e-9 := by
  obtain ⟨i, hi, k, hk, rfl⟩ := of_mem_makePath hp
  rw [waypoint_eval]
  set θ : ℝ := (k : ℝ) * (Real.pi / 12) with hθ
  have d1 : dot ⟨(0 : ℝ), 0, 1⟩ ⟨-Real.sin θ, Real.cos θ, 0⟩ = 0 := by simp [dot]
  have d2 : dot ⟨-Real.sin θ, Real.cos θ, 0⟩ ⟨-Real.cos θ, -Real.sin θ, 0⟩ = 0 := by
    simp only [dot]; ring
  have d3 : dot ⟨(0 : ℝ), 0, 1⟩ ⟨-Real.cos θ, -Real.sin θ, 0⟩ = 0 := by simp [dot]
  refine ⟨?_, ?_, ?_, ?_, ?_, ?_⟩
  · rw [d1]; norm_num
  · rw [d2]; norm_num
  · rw [d3]; norm_num
  · rw [vnorm_unitZ]; norm_num
  · rw [vnorm_tangent]; norm_num
  · rw [vnorm_inward]; norm_num

/-- Witness for C4 at slice 0, sample 0. -/
theorem makePath_frames_orthonormal_witness :
    |dot (waypoint 0 0).colX (waypoint 0 0).colY| ≤ 1e-9 ∧
    |dot (waypoint 0 0).colY (waypoint 0 0).colZ| ≤ 1e-9 ∧
    |dot (waypoint 0 0).colX (waypoint 0 0).colZ| ≤ 1e-9 ∧
    |vnorm (waypoint 0 0).colX - 1| ≤ 1e-9 ∧
    |vnorm (waypoint 0 0).colY - 1| ≤ 1e-9 ∧
    |vnorm (waypoint 0 0).colZ - 1| ≤ 1e-9 :=
  makePath_frames_orthonormal (waypoint 0 0)
    (waypoint_mem_makePath 0 0 (by decide) (by decide))

/-- C5: for every slice index and angular sample, the z-axis of the
generated frame points from the surface sample toward the slice center:
the dot product with `slice_center − position` is positive (it equals the
radius 0.2 exactly). -/
theorem makePath_zaxis_inward (i k : ℕ) (hi : i < n_slices) (hk : k < samplesPerRev) :
    waypoint i k ∈ makePath ∧
    0 < dot (waypoint i k).colZ (vsub (sliceCenter i).trans (waypoint i k).trans) := by
  refine ⟨waypoint_mem_makePath i k hi hk, ?_⟩
  rw [waypoint_eval, sliceCenter_eval]
  set θ : ℝ := (k : ℝ) * (Real.pi / 12) with hθ
  have hdot : dot ⟨-Real.cos θ, -Real.sin θ, 0⟩
      (vsub ⟨1, 0, 0.5 + (i : ℝ) * slice_height⟩
        ⟨1 + CYL_RADIUS * Real.cos θ, CYL_RADIUS * Real.sin θ,
         0.5 + (i : ℝ) * slice_height⟩) = CYL_RADIUS := by
    simp only [dot, vsub]
    linear_combination CYL_RADIUS * Real.sin_sq_add_cos_sq θ
  rw [hdot]
  norm_num [CYL_RADIUS]

/-- Witness for C5 at slice 0, sample 0. -/
theorem makePath_zaxis_inward_witness :
    waypoint 0 0 ∈ makePath ∧
    0 < dot (waypoint 0 0).colZ (vsub (sliceCenter 0).trans (waypoint 0 0).trans) :=
  makePath_zaxis_inward 0 0 (by decide) (by decide)

/-- C8: the first waypoint of `makePath` (slice 0, angle 0) sits at offset
(0.2, 0, 0) from its slice center, and its z-axis is exactly (−1, 0, 0). -/
theorem first_waypoint_pose :
    makePath.head? = some (waypoint 0 0) ∧
    vsub (waypoint 0 0).trans (sliceCenter 0).trans = ⟨0.2, 0, 0⟩ ∧
    (waypoint 0 0).colZ = ⟨-1, 0, 0⟩ := by
  refine ⟨rfl, ?_, ?_⟩
  · rw [waypoint_eval, sliceCenter_eval]
    simp only [Nat.cast_zero, zero_mul, Real.cos_zero, Real.sin_zero, vsub,
      V3.mk.injEq, CYL_RADIUS]
    norm_num
  · rw [waypoint_eval]
    simp only [Nat.cast_zero, zero_mul, Real.cos_zero, Real.sin_zero, neg_zero]

/-- C9: the path generator is deterministic: two invocations with
componentwise-identical inputs (radius, slice height, slice count, angular
step with its sample count, origin frame) produce identical toolpaths. -/
theorem makePath_deterministic (r₁ h₁ : ℝ) (n₁ : ℕ) (s₁ : ℝ) (m₁ : ℕ) (o₁ : Iso)
    (r₂ h₂ : ℝ) (n₂ : ℕ) (s₂ : ℝ) (m₂ : ℕ) (o₂ : Iso)
    (hr : r₁ = r₂) (hh : h₁ = h₂) (hn : n₁ = n₂) (hs : s₁ = s₂) (hm : m₁ = m₂)
    (ho : o₁ = o₂) :
    makePathP r₁ h₁ n₁ s₁ m₁ o₁ = makePathP r₂ h₂ n₂ s₂ m₂ o₂ ∧
    (makePathP r₁ h₁ n₁ s₁ m₁ o₁).length = (makePathP r₂ h₂ n₂ s₂ m₂ o₂).length := by
  subst hr hh hn hs hm ho
  exact ⟨rfl, rfl⟩

/-- Witness for C9 at the program's fixed inputs. -/
theorem makePath_deterministic_witness :
    makePathP CYL_RADIUS slice_height n_slices (Real.pi / 12) samplesPerRev origin =
      makePathP CYL_RADIUS slice_height n_slices (Real.pi / 12) samplesPerRev origin ∧
    (makePathP CYL_RADIUS slice_height n_slices (Real.pi / 12) samplesPerRev origin).length =
      (makePathP CYL_RADIUS slice_height n_slices (Real.pi / 12) samplesPerRev origin).length :=
  makePath_deterministic CYL_RADIUS slice_height n_slices (Real.pi / 12) samplesPerRev origin
    CYL_RADIUS slice_height n_slices (Real.pi / 12) samplesPerRev origin
    rfl rfl rfl rfl rfl rfl

/-- C10: the x-axis of every frame generated by `makePath` is exactly
(0, 0, 1): the tool frame's x-axis always points along the cylinder's
axis since `y × z = (0, 0, sin² r + cos² r) = (0, 0, 1)` for every angle. -/
theorem makePath_xaxis_along_cylinder (p : Iso) (hp : p ∈ makePath) :
    p.colX = ⟨0, 0, 1⟩ := by
  obtain ⟨i, hi, k, hk, rfl⟩ := of_mem_makePath hp
  rw [waypoint_eval]

/-- Witness for C10 at slice 0, sample 0. -/
theorem makePath_xaxis_along_cylinder_witness :
    (waypoint 0 0).colX = ⟨0, 0, 1⟩ :=
  makePath_xaxis_along_cylinder (waypoint 0 0)
    (waypoint_mem_makePath 0 0 (by decide) (by decide))

/-! ### makeProblem (demo2.cpp lines 151-229)

The environment interaction (`pci.env->getManipulator`, joint count,
`getCurrentJointValues`) is abstracted into the parameters `dof` and
`start_pos`; everything else follows the source line by line. -/

/-- A 4-vector, modelling the `Eigen::Vector4d` holding `(w, x, y, z)` of a
quaternion. -/
structure V4 where
  w : ℝ
  x : ℝ
  y : ℝ
  z : ℝ

/-- Modelled from Eigen (external library): the `to_wxyz` lambda of
`makeProblem` (lines 203-211) builds `Eigen::Quaterniond q(p.linear())` —
Eigen's rotation-matrix → quaternion conversion, branching on the trace and
the largest diagonal entry — and returns `(q.w, q.x, q.y, q.z)`.  Writing
`m(r,c)` for the rotation entry in row `r`, column `c` (so column 0 is
`colX`, etc.), this is Eigen's `quaternionbase_assign_impl`. -/
def to_wxyz (p : Iso) : V4 :=
  let m00 := p.colX.x; let m01 := p.colY.x; let m02 := p.colZ.x
  let m10 := p.colX.y; let m11 := p.colY.y; let m12 := p.colZ.y
  let m20 := p.colX.z; let m21 := p.colY.z; let m22 := p.colZ.z
  let t := m00 + m11 + m22
  if 0 < t then
    let s := Real.sqrt (t + 1)
    let f := 0.5 / s
    ⟨0.5 * s, (m21 - m12) * f, (m02 - m20) * f, (m10 - m01) * f⟩
  else if m00 < m11 then
    if m11 < m22 then
      let s := Real.sqrt (m22 - m00 - m11 + 1)
      let f := 0.5 / s
      ⟨(m10 - m01) * f, (m02 + m20) * f, (m12 + m21) * f, 0.5 * s⟩
    else
      let s := Real.sqrt (m11 - m22 - m00 + 1)
      let f := 0.5 / s
      ⟨(m02 - m20) * f, (m01 + m10) * f, 0.5 * s, (m21 + m12) * f⟩
  else if m00 < m22 then
    let s := Real.sqrt (m22 - m00 - m11 + 1)
    let f := 0.5 / s
    ⟨(m10 - m01) * f, (m02 + m20) * f, (m12 + m21) * f, 0.5 * s⟩
  else
    let s := Real.sqrt (m00 - m11 - m22 + 1)
    let f := 0.5 / s
    ⟨(m21 - m12) * f, 0.5 * s, (m10 + m01) * f, (m20 + m02) * f⟩

/-- The fields of `trajopt::StaticPoseCostInfo` that `makeProblem` populates
(lines 216-224). -/
structure StaticPoseInfo where
  name : String
  link : String
  timestep : ℕ
  xyz : V3
  wxyz : V4
  pos_coeffs : V3
  rot_coeffs : V3

/-- Modelled from the spec: trajopt's `SafetyMarginData` (the collision
margin store; trajopt is an external collaborator, its sources are not part
of this repository).  It holds a default (margin, weight) applying to every
body pair plus per-pair overrides keyed by the unordered pair of body
names. -/
structure SafetyMarginData where
  default_margin : ℝ
  default_coeff : ℝ
  overrides : List (String × String × ℝ × ℝ)

/-- Modelled from the spec: `SetPairSafetyMarginData` records an override
for the unordered pair of body names `(a, b)`. -/
def SetPairSafetyMarginData (d : SafetyMarginData) (a b : String) (m c : ℝ) :
    SafetyMarginData :=
  { d with overrides := (a, b, m, c) :: d.overrides }

/-- Modelled from the spec: the effective (margin, weight) of a body pair is
its most recent override when the unordered pair was overridden, and the
default otherwise. -/
def getPairSafetyMarginData (d : SafetyMarginData) (a b : String) : ℝ × ℝ :=
  match d.overrides.find? fun e => (e.1 == a && e.2.1 == b) || (e.1 == b && e.2.1 == a) with
  | some e => (e.2.2.1, e.2.2.2)
  | none => (d.default_margin, d.default_coeff)

/-- Modelled from the spec: `trajopt::createSafetyMarginDataVector(n, m, c)`
builds one margin store per trajectory step, each with default margin `m`,
default weight `c` and no overrides. -/
def createSafetyMarginDataVector (n : ℕ) (m c : ℝ) : List SafetyMarginData :=
  List.replicate n ⟨m, c, []⟩

/-- The cost-term variants `makeProblem` pushes into `pci.cost_infos`. -/
inductive CostInfo where
  | jointVel (name : String) (coeffs : List ℝ)
  | jointAcc (name : String) (coeffs : List ℝ)
  | collision (name : String) (continuous : Bool) (first_step last_step gap : ℤ)
      (info : List SafetyMarginData)

/-- The fields of `trajopt::ProblemConstructionInfo` that `makeProblem`
populates. -/
structure ProblemInfo where
  n_steps : ℕ
  manip : String
  start_fixed : Bool
  init_data : List (List ℝ)
  cost_infos : List CostInfo
  cnt_infos : List StaticPoseInfo

/-- The per-step collision margin stores after the override loop (lines
192-199): each step's store gets the (sander_disk, part) and
(sander_shaft, part) overrides applied in that order. -/
def collisionInfo (n_steps : ℕ) : List SafetyMarginData :=
  (createSafetyMarginDataVector n_steps 0.025 20).map fun c =>
    SetPairSafetyMarginData
      (SetPairSafetyMarginData c "sander_disk" "part" (-0.01) 20.0)
      "sander_shaft" "part" 0.0 20.0

/-- The collision cost term (lines 185-201): discrete checking over the full
horizon with the per-step margin stores. -/
def collisionCost (n_steps : ℕ) : CostInfo :=
  CostInfo.collision "collision" false 0 ((n_steps : ℤ) - 1) 1 (collisionInfo n_steps)

/-- The pose constraint built for waypoint `i` (lines 216-224). -/
def poseCnt (i : ℕ) (p : Iso) : StaticPoseInfo :=
  { name := "waypoint_cart_" ++ toString i
    link := "sander_tcp"
    timestep := i
    xyz := p.trans
    wxyz := to_wxyz p
    pos_coeffs := ⟨10, 10, 10⟩
    rot_coeffs := ⟨10, 10, 0⟩ }

/-- The constraint loop (lines 214-226): one pose constraint per waypoint,
with the step index equal to the waypoint index. -/
def poseCnts : ℕ → List Iso → List StaticPoseInfo
  | _, [] => []
  | i, p :: rest => poseCnt i p :: poseCnts (i + 1) rest

/-- `makeProblem` (lines 151-229). -/
def makeProblem (dof : ℕ) (start_pos : List ℝ) (geometric_path : List Iso) :
    ProblemInfo where
  n_steps := geometric_path.length
  manip := "my_robot"
  start_fixed := false
  init_data := List.replicate geometric_path.length start_pos
  cost_infos :=
    [CostInfo.jointVel "joint_vel" (List.replicate dof 2.5),
     CostInfo.jointAcc "joint_acc" (List.replicate dof 5.0),
     collisionCost geometric_path.length]
  cnt_infos := poseCnts 0 geometric_path

/-- The constraint loop emits one constraint per waypoint. -/
lemma poseCnts_length (i : ℕ) (l : List Iso) : (poseCnts i l).length = l.length := by
  induction l generalizing i with
  | nil => rfl
  | cons p rest ih => simp [poseCnts, ih]

/-- Element `j` of the constraint loop started at `i` is the constraint
for waypoint `j` at step `i + j`. -/
lemma poseCnts_getElem? (l : List Iso) (i j : ℕ) (p : Iso) (h : l[j]? = some p) :
    (poseCnts i l)[j]? = some (poseCnt (i + j) p) := by
  induction l generalizing i j with
  | nil => simp at h
  | cons q rest ih =>
    cases j with
    | zero =>
      simp only [List.getElem?_cons_zero, Option.some.injEq] at h
      subst h
      simp [poseCnts]
    | succ j' =>
      simp only [List.getElem?_cons_succ] at h
      have := ih (i + 1) j' h
      simpa [poseCnts, Nat.add_assoc, Nat.add_comm 1 j'] using this

/-- The step indices emitted by the constraint loop started at `i` are
`i, i+1, …` in order. -/
lemma poseCnts_timesteps (i : ℕ) (l : List Iso) :
    (poseCnts i l).map (fun c => c.timestep) = List.range' i l.length := by
  induction l generalizing i with
  | nil => rfl
  | cons p rest ih => simp [poseCnts, poseCnt, List.range'_succ, ih]

/-- C2: `makeProblem` adds exactly one pose-equality constraint per toolpath
entry (constraint count = toolpath length), the constraints' step indices
are exactly `0, …, n_steps−1` in order, and constraint `i` targets link
"sander_tcp" with the waypoint's position and orientation, position weights
(10,10,10) and orientation weights (10,10,0), leaving the third rotational
axis unconstrained. -/
theorem makeProblem_constraints (dof : ℕ) (sp : List ℝ) (path : List Iso)
    (i : ℕ) (p : Iso) (hip : path[i]? = some p) :
    (makeProblem dof sp path).cnt_infos.length = path.length ∧
    ((makeProblem dof sp path).cnt_infos.map fun c => c.timestep) =
      List.range path.length ∧
    (makeProblem dof sp path).cnt_infos[i]? = some
      { name := "waypoint_cart_" ++ toString i
        link := "sander_tcp"
        timestep := i
        xyz := p.trans
        wxyz := to_wxyz p
        pos_coeffs := ⟨10, 10, 10⟩
        rot_coeffs := ⟨10, 10, 0⟩ } := by
  refine ⟨poseCnts_length 0 path, ?_, ?_⟩
  · rw [List.range_eq_range']
    exact poseCnts_timesteps 0 path
  · have := poseCnts_getElem? path 0 i p hip
    simpa [poseCnt] using this

/-- Witness for C2 on a one-waypoint path. -/
theorem makeProblem_constraints_witness :
    (makeProblem 1 [] [isoId]).cnt_infos.length = [isoId].length ∧
    ((makeProblem 1 [] [isoId]).cnt_infos.map fun c => c.timestep) =
      List.range [isoId].length ∧
    (makeProblem 1 [] [isoId]).cnt_infos[0]? = some
      { name := "waypoint_cart_" ++ toString 0
        link := "sander_tcp"
        timestep := 0
        xyz := isoId.trans
        wxyz := to_wxyz isoId
        pos_coeffs := ⟨10, 10, 10⟩
        rot_coeffs := ⟨10, 10, 0⟩ } :=
  makeProblem_constraints 1 [] [isoId] 0 isoId rfl

/-- Unordered equality of body-name pairs. -/
def samePair (a b c d : String) : Prop := (a = c ∧ b = d) ∨ (a = d ∧ b = c)

/-- Every per-step margin store of the collision term is the default store
with the two pair overrides applied. -/
lemma mem_collisionInfo {n : ℕ} {d : SafetyMarginData} (hd : d ∈ collisionInfo n) :
    d = SetPairSafetyMarginData
          (SetPairSafetyMarginData ⟨0.025, 20, []⟩ "sander_disk" "part" (-0.01) 20.0)
          "sander_shaft" "part" 0.0 20.0 := by
  simp only [collisionInfo, createSafetyMarginDataVector, List.mem_map] at hd
  obtain ⟨c, hc, rfl⟩ := hd
  rw [List.eq_of_mem_replicate hc]

/-- C3: the collision cost term covers the full horizon (`first_step = 0`,
`last_step = n_steps − 1`) with discrete-only evaluation
(`continuous = false`), carries one margin store per step, and in every
store the pair (sander_disk, part) has effective margin −0.01 and weight
20, the pair (sander_shaft, part) has effective margin 0.0 and weight 20,
and every other (unordered) body pair keeps the default margin 0.025 and
weight 20. -/
theorem makeProblem_collision (dof : ℕ) (sp : List ℝ) (path : List Iso)
    (a b : String)
    (hdisk : ¬ samePair a b "sander_disk" "part")
    (hshaft : ¬ samePair a b "sander_shaft" "part") :
    (makeProblem dof sp path).cost_infos[2]? = some
      (CostInfo.collision "collision" false 0 ((path.length : ℤ) - 1) 1
        (collisionInfo path.length)) ∧
    (collisionInfo path.length).length = path.length ∧
    ∀ d ∈ collisionInfo path.length,
      getPairSafetyMarginData d "sander_disk" "part" = (-0.01, 20.0) ∧
      getPairSafetyMarginData d "sander_shaft" "part" = (0.0, 20.0) ∧
      getPairSafetyMarginData d a b = (0.025, 20) := by
  refine ⟨rfl, by simp [collisionInfo, createSafetyMarginDataVector], ?_⟩
  intro d hd
  rw [mem_collisionInfo hd]
  refine ⟨?_, ?_, ?_⟩
  · rfl
  · rfl
  · show getPairSafetyMarginData
      ⟨0.025, 20, [("sander_shaft", "part", 0.0, 20.0),
                   ("sander_disk", "part", -0.01, 20.0)]⟩ a b = (0.025, 20)
    rw [getPairSafetyMarginData]
    have hfind : [(("sander_shaft" : String), ("part" : String), (0.0 : ℝ), (20.0 : ℝ)),
        ("sander_disk", "part", -0.01, 20.0)].find?
        (fun e => (e.1 == a && e.2.1 == b) || (e.1 == b && e.2.1 == a)) = none := by
      rw [List.find?_eq_none]
      intro e he
      simp only [List.mem_cons, List.mem_singleton, List.not_mem_nil, or_false] at he
      rcases he with rfl | rfl <;>
      · intro hcon
        simp only [Bool.or_eq_true, Bool.and_eq_true, beq_iff_eq] at hcon
        rcases hcon with ⟨h1, h2⟩ | ⟨h1, h2⟩
        · first
          | exact hshaft (Or.inl ⟨h1.symm, h2.symm⟩)
          | exact hdisk (Or.inl ⟨h1.symm, h2.symm⟩)
        · first
          | exact hshaft (Or.inr ⟨h2.symm, h1.symm⟩)
          | exact hdisk (Or.inr ⟨h2.symm, h1.symm⟩)
    rw [hfind]

/-- Witness for C3: the pair (base_link, part) is not overridden and keeps
the default margin. -/
theorem makeProblem_collision_witness :
    (makeProblem 1 [] [isoId]).cost_infos[2]? = some
      (CostInfo.collision "collision" false 0 (([isoId].length : ℤ) - 1) 1
        (collisionInfo [isoId].length)) ∧
    (collisionInfo [isoId].length).length = [isoId].length ∧
    ∀ d ∈ collisionInfo [isoId].length,
      getPairSafetyMarginData d "sander_disk" "part" = (-0.01, 20.0) ∧
      getPairSafetyMarginData d "sander_shaft" "part" = (0.0, 20.0) ∧
      getPairSafetyMarginData d "base_link" "part" = (0.025, 20) :=
  makeProblem_collision 1 [] [isoId] "base_link" "part"
    (by simp [samePair]) (by simp [samePair])

/-- C6: `makeProblem` adds exactly three cost terms, in the order
JointVelocity (uniform per-joint coefficient 2.5), JointAcceleration
(uniform per-joint coefficient 5.0), Collision; the coefficient lists give
one coefficient per joint. -/
theorem makeProblem_cost_terms (dof : ℕ) (sp : List ℝ) (path : List Iso) :
    (makeProblem dof sp path).cost_infos =
      [CostInfo.jointVel "joint_vel" (List.replicate dof 2.5),
       CostInfo.jointAcc "joint_acc" (List.replicate dof 5.0),
       collisionCost path.length] ∧
    (makeProblem dof sp path).cost_infos.length = 3 ∧
    (List.replicate dof (2.5 : ℝ)).length = dof ∧
    (List.replicate dof (5.0 : ℝ)).length = dof :=
  ⟨rfl, rfl, List.length_replicate dof 2.5, List.length_replicate dof 5.0⟩

/-! ### Trajectory export (demo2.cpp lines 281-298) -/

/-- The solver outcome as `main` consumes it: `opt_status != OPT_CONVERGED`
is only a warning. -/
inductive OptStatus where
  | converged
  | notConverged

/-- The fields of `trajectory_msgs::JointTrajectoryPoint` that `main` sets. -/
structure TrajPoint where
  positions : List ℝ
  time_from_start : ℝ

/-- The export loop of `main` (lines 289-298): one trajectory point per row
of the solved joint matrix, positions copied from the row, time offset
`1.0 * i` for row `i`. -/
def exportRows : ℕ → List (List ℝ) → List TrajPoint
  | _, [] => []
  | i, row :: rest => ⟨row, 1.0 * (i : ℝ)⟩ :: exportRows (i + 1) rest

/-- The tail of `main` after `optimizer.optimize()` returns (lines 281-298):
a non-converged status triggers only `ROS_WARN` (line 282), after which the
export loop runs unconditionally on the solved matrix. -/
def mainExport : OptStatus → List (List ℝ) → List TrajPoint
  | _, result => exportRows 0 result

/-- The export loop keeps every row. -/
lemma exportRows_length (i : ℕ) (l : List (List ℝ)) :
    (exportRows i l).length = l.length := by
  induction l generalizing i with
  | nil => rfl
  | cons row rest ih => simp [exportRows, ih]

/-- Row `j` of the export loop started at `i` becomes the point with time
offset `1.0 · (i + j)`. -/
lemma exportRows_getElem? (l : List (List ℝ)) (i j : ℕ) (row : List ℝ)
    (h : l[j]? = some row) :
    (exportRows i l)[j]? = some ⟨row, 1.0 * ((i + j : ℕ) : ℝ)⟩ := by
  induction l generalizing i j with
  | nil => simp at h
  | cons q rest ih =>
    cases j with
    | zero =>
      simp only [List.getElem?_cons_zero, Option.some.injEq] at h
      subst h
      simp [exportRows]
    | succ j' =>
      simp only [List.getElem?_cons_succ] at h
      have := ih (i + 1) j' h
      simpa [exportRows, Nat.add_assoc, Nat.add_comm 1 j'] using this

/-- C7: when the solver reports non-convergence the pipeline still exports
the trajectory: the output has one point per row of the solved joint matrix
(no truncation), row `j` keeps its joint values with time offset exactly
`1.0 · j` (so offsets increase by one time-unit per step starting from 0),
and the export is identical to the converged case. -/
theorem export_not_converged (result : List (List ℝ)) (j : ℕ) (row : List ℝ)
    (h : result[j]? = some row) :
    (mainExport OptStatus.notConverged result).length = result.length ∧
    (mainExport OptStatus.notConverged result)[j]? = some ⟨row, 1.0 * (j : ℝ)⟩ ∧
    mainExport OptStatus.notConverged result = mainExport OptStatus.converged result := by
  refine ⟨exportRows_length 0 result, ?_, rfl⟩
  have := exportRows_getElem? result 0 j row h
  simpa using this

/-- Witness for C7 on a concrete two-row matrix. -/
theorem export_not_converged_witness :
    (mainExport OptStatus.notConverged [[5], [6, 7]]).length = [[(5 : ℝ)], [6, 7]].length ∧
    (mainExport OptStatus.notConverged [[5], [6, 7]])[1]? =
      some ⟨[6, 7], 1.0 * ((1 : ℕ) : ℝ)⟩ ∧
    mainExport OptStatus.notConverged [[5], [6, 7]] =
      mainExport OptStatus.converged [[5], [6, 7]] :=
  export_not_converged [[5], [6, 7]] 1 [6, 7] rfl

end Demo2
